import Mathlib

/-!
Verification of the dependency-updating tool (`update_pkg_deps`).

The development shallowly embeds the final revision of the tool
(`update_pkg_deps/main.py`): the `Package` identifier (parse / serialize),
the registry client `get_latest` (modelled against an HTTP oracle, with the
issued request recorded so that timeout and call-count properties can be
stated), and the concurrent updater `update_manifest_deps` (the completion
order of the thread-pool lookups is an explicit permutation parameter;
`max_workers` is threaded through as the pool-size parameter, which affects
only scheduling, i.e. the completion order).

Python strings are modelled as `List Char`; Python dict manifests as a
structure holding the `dependencies` list plus the remaining key/value
pairs.  Exceptions are modelled with `Except`.
-/

/-- Python's `str.split("-")`: splits a string on every dash; the empty
string yields one empty part, so the number of parts is always the number
of dashes plus one. -/
def splitOnDash : List Char → List (List Char)
  | [] => [[]]
  | c :: rest =>
    if c = '-' then
      [] :: splitOnDash rest
    else
      match splitOnDash rest with
      | [] => [[c]]
      | part :: parts => (c :: part) :: parts

/-- `Package` dataclass: a Thunderstore package identifier triple. -/
structure Package where
  «namespace» : List Char
  name : List Char
  version : List Char
deriving DecidableEq, Repr

/-- `Package.from_str`: unpacks `full_name.split("-")` into exactly three
components; raises `ValueError` (modelled as `.error full_name`, the string
embedded in the Python error message) when the split does not yield exactly
three parts. -/
def Package.from_str (full_name : List Char) : Except (List Char) Package :=
  match splitOnDash full_name with
  | [ns, nm, ver] => .ok ⟨ns, nm, ver⟩
  | _ => .error full_name

/-- `Package.__str__`: joins the three components with dashes. -/
def Package.toStr (p : Package) : List Char :=
  p.«namespace» ++ '-' :: (p.name ++ '-' :: p.version)

/-- Python string `<=`: lexicographic comparison by code point, with a
proper prefix smaller than the longer string. -/
def lexLe : List Char → List Char → Bool
  | [], _ => true
  | _ :: _, [] => false
  | a :: as, b :: bs =>
    if a < b then true
    else if a = b then lexLe as bs
    else false

/-- `_URL_API_EXP` module constant. -/
def URL_API_EXP : List Char := "https://thunderstore.io/api/experimental".toList

/-- `_TIMEOUT` module constant (seconds); the default value of the
`timeout` parameter of `get_latest`. -/
def TIMEOUT : Nat := 10

/-- `_DEFAULT_MAX_WORKERS` module constant; the default value of the
`max_workers` parameter of `update_manifest_deps`. -/
def DEFAULT_MAX_WORKERS : Nat := 5

/-- An HTTP GET request as issued by `requests.get(url, timeout=...)`:
`timeout = none` models a call that passes no timeout (`requests` then
waits indefinitely). -/
structure HttpRequest where
  url : List Char
  timeout : Option Nat
deriving DecidableEq, Repr

/-- What the code observes of an HTTP response: the status code (used by
`raise_for_status`) and the result of the extraction chain
`response.json()["latest"]["version_number"]` — `some v` when the body is
well-formed JSON carrying that string field, `none` when any step of the
chain raises (malformed body, missing key). -/
structure HttpResponse where
  status : Nat
  latest_version_number : Option (List Char)
deriving DecidableEq, Repr

/-- Outcome of `requests.get`: either the call itself raises (network
failure) or a response comes back. -/
inductive HttpResult where
  | failure
  | success (resp : HttpResponse)
deriving DecidableEq, Repr

/-- The registry, abstracted as a fixed map from requests to outcomes. -/
def HttpOracle := HttpRequest → HttpResult

/-- Failure causes of a single `get_latest` call: `requests.get` raised,
`raise_for_status` raised (4xx/5xx), or the body-extraction chain raised. -/
inductive GetLatestErr where
  | connectionError
  | httpError (status : Nat)
  | malformedBody
deriving DecidableEq, Repr

/-- The URL templated on namespace and name:
`f"{_URL_API_EXP}/package/{self.namespace}/{self.name}/"`. -/
def Package.url (p : Package) : List Char :=
  URL_API_EXP ++ "/package/".toList ++ p.«namespace» ++ ['/'] ++ p.name ++ ['/']

/-- The request `get_latest` issues: GET on `p.url` with the given
timeout always attached (`requests.get(url, timeout=timeout)`). -/
def Package.request (p : Package) (timeout : Nat) : HttpRequest :=
  ⟨p.url, some timeout⟩

/-- `Package.get_latest`: issues one GET, checks the status
(`raise_for_status` raises exactly for statuses in `[400, 600)`), extracts
`["latest"]["version_number"]` and returns a new `Package` with the same
namespace and name and the fetched version.  The second component records
the single request issued.  In Python the `timeout` parameter defaults to
`_TIMEOUT`; here callers pass it explicitly. -/
def Package.get_latest (http : HttpOracle) (p : Package) (timeout : Nat) :
    Except GetLatestErr Package × HttpRequest :=
  let req := p.request timeout
  (match http req with
   | .failure => .error .connectionError
   | .success resp =>
     if 400 ≤ resp.status ∧ resp.status < 600 then
       .error (.httpError resp.status)
     else
       match resp.latest_version_number with
       | none => .error .malformedBody
       | some v => .ok ⟨p.«namespace», p.name, v⟩,
   req)

/-- A package manifest: the `dependencies` list (a list of identifier
strings) together with the remaining key/value entries of the JSON
document, which the tool copies but never inspects. -/
structure Manifest where
  dependencies : List (List Char)
  other : List (List Char × List Char)
deriving DecidableEq, Repr

/-- Errors raised by `update_manifest_deps`: the `ValueError` of
`Package.from_str` (carrying the offending string) or the `ValueError`
raised in the collection loop, carrying the package whose lookup failed
and the underlying cause. -/
inductive UpdateError where
  | malformedIdentifier (full_name : List Char)
  | lookupFailed (pkg : Package) (cause : GetLatestErr)
deriving DecidableEq, Repr

/-- The list comprehension `[Package.from_str(elem) for elem in
manifest["dependencies"]]`: parses in list order, the first failure
aborting the whole comprehension. -/
def parseDeps : List (List Char) → Except (List Char) (List Package)
  | [] => .ok []
  | s :: rest =>
    match Package.from_str s with
    | .error e => .error e
    | .ok p => (parseDeps rest).map (p :: ·)

/-- The `as_completed` collection loop over the already-permuted list of
submitted packages: appends each successful result in completion order and
raises on the first failed future, wrapping the cause together with the
package taken from `future_to_pkg`.  Each lookup uses the default timeout
(`get_latest()` is called with no argument). -/
def collectLatest (http : HttpOracle) : List Package → Except UpdateError (List Package)
  | [] => .ok []
  | p :: rest =>
    match (Package.get_latest http p TIMEOUT).1 with
    | .error e => .error (.lookupFailed p e)
    | .ok q => (collectLatest http rest).map (q :: ·)

/-- `update_manifest_deps`:
deep-copies the manifest, parses every dependency string, submits one
`get_latest` task per parsed package to a pool of `max_workers` threads,
collects results in completion order, and writes back the serialized
results sorted with Python's `sorted`.

`order` is the completion order of the pool: the list of indices into the
submitted task list in the order `as_completed` yields their futures (a
permutation of `range n` for any real execution; `max_workers` influences
which permutations can occur, nothing else).  The second component records
the HTTP requests handed to the executor: one per parsed package, none
when parsing fails. -/
def update_manifest_deps (http : HttpOracle) (order : List Nat)
    (manifest : Manifest) (max_workers : Nat) :
    Except UpdateError Manifest × List HttpRequest :=
  match parseDeps manifest.dependencies with
  | .error s => (.error (.malformedIdentifier s), [])
  | .ok deps_orig =>
    let submitted := deps_orig.map (fun p => p.request TIMEOUT)
    let completed := order.filterMap (fun i => deps_orig.get? i)
    match collectLatest http completed with
    | .error e => (.error e, submitted)
    | .ok deps_latest =>
      (.ok { manifest with
             dependencies := (deps_latest.map Package.toStr).mergeSort lexLe },
       submitted)

/-- The updated package a successful lookup returns (equals the payload of
`get_latest` whenever that call succeeds; the argument itself otherwise). -/
def latestOf (http : HttpOracle) (p : Package) : Package :=
  match (Package.get_latest http p TIMEOUT).1 with
  | .ok q => q
  | .error _ => p

/-- `main`, reduced to its file effect on the output path: the output file
(initial content `out0`, `none` when absent) is written with the updated
manifest only after `update_manifest_deps` returns; when it raises, the
exception propagates and the file keeps its previous content.  Returns the
final output-file content and whether the run succeeded. -/
def main_run (http : HttpOracle) (order : List Nat) (manifest_orig : Manifest)
    (max_workers : Nat) (out0 : Option Manifest) : Option Manifest × Bool :=
  match (update_manifest_deps http order manifest_orig max_workers).1 with
  | .ok m => (some m, true)
  | .error _ => (out0, false)

/-- A Python heap of manifest objects: references are list indices. -/
abbrev Store := List Manifest

/-- `copy.deepcopy`: allocates a fresh, structurally equal manifest and
returns its reference. -/
def Store.deepcopy (s : Store) (r : Nat) : Store × Nat :=
  (s ++ [List.getD s r ⟨[], []⟩], List.length s)

/-- In-place `manifest["dependencies"] = v` on the object at `r`. -/
def Store.setDeps (s : Store) (r : Nat) (v : List (List Char)) : Store :=
  List.set s r { List.getD s r ⟨[], []⟩ with dependencies := v }

/-- `update_manifest_deps` with the heap explicit, to express what the
Python code does to objects: the local `manifest` is rebound to a deep
copy before anything else, and the dependency write mutates only that
copy; the reference returned is the copy's. -/
def update_manifest_deps_st (http : HttpOracle) (order : List Nat)
    (s : Store) (r : Nat) (max_workers : Nat) :
    Store × Except UpdateError Nat :=
  let copied := Store.deepcopy s r
  let s1 := copied.1
  let r1 := copied.2
  match parseDeps (List.getD s1 r1 ⟨[], []⟩).dependencies with
  | .error e => (s1, .error (.malformedIdentifier e))
  | .ok deps_orig =>
    let completed := order.filterMap (fun i => deps_orig.get? i)
    match collectLatest http completed with
    | .error e => (s1, .error e)
    | .ok deps_latest =>
      (Store.setDeps s1 r1 ((deps_latest.map Package.toStr).mergeSort lexLe),
       .ok r1)

/-- Whether an `Except` computation succeeded (Python: no exception). -/
def exceptOk {ε α : Type} : Except ε α → Bool
  | .ok _ => true
  | .error _ => false

theorem exceptOk_true_iff {ε α : Type} (x : Except ε α) :
    exceptOk x = true ↔ ∃ a, x = .ok a := by
  cases x <;> simp [exceptOk]

theorem exceptOk_false_iff {ε α : Type} (x : Except ε α) :
    exceptOk x = false ↔ ∃ e, x = .error e := by
  cases x <;> simp [exceptOk]

theorem splitOnDash_ne_nil (l : List Char) : splitOnDash l ≠ [] := by
  cases l with
  | nil => simp [splitOnDash]
  | cons c rest =>
    simp only [splitOnDash]
    split
    · simp
    · split <;> simp

theorem splitOnDash_no_dash (a : List Char) (h : '-' ∉ a) : splitOnDash a = [a] := by
  induction a with
  | nil => rfl
  | cons c rest ih =>
    have hc : ¬(c = '-') := fun hc => h (hc ▸ List.mem_cons_self c rest)
    have h' : '-' ∉ rest := fun hm => h (List.mem_cons_of_mem _ hm)
    simp only [splitOnDash, if_neg hc, ih h']

theorem splitOnDash_append (a rest : List Char) (h : '-' ∉ a) :
    splitOnDash (a ++ '-' :: rest) = a :: splitOnDash rest := by
  induction a with
  | nil => simp [splitOnDash]
  | cons c a ih =>
    have hc : ¬(c = '-') := fun hc => h (hc ▸ List.mem_cons_self c a)
    have h' : '-' ∉ a := fun hm => h (List.mem_cons_of_mem _ hm)
    rw [List.cons_append]
    simp only [splitOnDash, if_neg hc, ih h']

theorem length_splitOnDash (l : List Char) :
    (splitOnDash l).length = l.count '-' + 1 := by
  induction l with
  | nil => rfl
  | cons c rest ih =>
    by_cases hc : c = '-'
    · subst hc
      simp [splitOnDash, List.count_cons, ih]
    · simp only [splitOnDash, if_neg hc]
      rcases hr : splitOnDash rest with _ | ⟨p, ps⟩
      · exact absurd hr (splitOnDash_ne_nil rest)
      · have : (splitOnDash rest).length = rest.count '-' + 1 := ih
        rw [hr] at this
        simp only [List.length_cons] at this ⊢
        simp [List.count_cons, hc, this]

theorem from_str_isOk_iff (s : List Char) :
    exceptOk (Package.from_str s) = true ↔ (splitOnDash s).length = 3 := by
  unfold Package.from_str
  rcases h : splitOnDash s with _ | ⟨a, _ | ⟨b, _ | ⟨c, _ | ⟨d, tl⟩⟩⟩⟩ <;>
    simp [exceptOk]

/-- C3: `parse` and `format` are mutually inverse on dash-free components:
a string assembled as `ns ++ "-" ++ name ++ "-" ++ ver` parses to exactly
that triple, the triple formats back to the same string (so
`format (parse s) = s`), and `parse (format p) = p`. -/
theorem C3_parse_format_round_trip (a b c : List Char)
    (ha : '-' ∉ a) (hb : '-' ∉ b) (hc : '-' ∉ c) :
    Package.from_str (a ++ '-' :: (b ++ '-' :: c)) = .ok ⟨a, b, c⟩ ∧
    Package.toStr ⟨a, b, c⟩ = a ++ '-' :: (b ++ '-' :: c) ∧
    Package.from_str (Package.toStr ⟨a, b, c⟩) = .ok ⟨a, b, c⟩ := by
  have h1 : splitOnDash (a ++ '-' :: (b ++ '-' :: c)) = [a, b, c] := by
    rw [splitOnDash_append a _ ha, splitOnDash_append b _ hb,
      splitOnDash_no_dash c hc]
  refine ⟨?_, rfl, ?_⟩ <;> simp [Package.from_str, Package.toStr, h1]

theorem C3_witness :
    Package.from_str ("acme".toList ++ '-' :: ("widget".toList ++ '-' :: "1.0.0".toList)) =
      .ok ⟨"acme".toList, "widget".toList, "1.0.0".toList⟩ ∧
    Package.toStr ⟨"acme".toList, "widget".toList, "1.0.0".toList⟩ =
      "acme".toList ++ '-' :: ("widget".toList ++ '-' :: "1.0.0".toList) ∧
    Package.from_str (Package.toStr ⟨"acme".toList, "widget".toList, "1.0.0".toList⟩) =
      .ok ⟨"acme".toList, "widget".toList, "1.0.0".toList⟩ :=
  C3_parse_format_round_trip "acme".toList "widget".toList "1.0.0".toList
    (by decide) (by decide) (by decide)

/-- C4: `from_str` fails exactly when the split does not yield three
parts; the raised error carries the offending string; and any string with
exactly two dashes parses successfully (two dashes give three parts). -/
theorem C4_parse_failure_iff (s : List Char) :
    (exceptOk (Package.from_str s) = false ↔ (splitOnDash s).length ≠ 3) ∧
    (∀ e, Package.from_str s = .error e → e = s) ∧
    (s.count '-' = 2 → exceptOk (Package.from_str s) = true) := by
  refine ⟨?_, ?_, ?_⟩
  · rw [← Bool.not_eq_true, from_str_isOk_iff]
  · intro e he
    unfold Package.from_str at he
    rcases h : splitOnDash s with _ | ⟨a, _ | ⟨b, _ | ⟨c, _ | ⟨d, tl⟩⟩⟩⟩ <;>
      rw [h] at he <;> simp_all
  · intro hcount
    rw [from_str_isOk_iff, length_splitOnDash, hcount]

theorem C4_witness :
    exceptOk (Package.from_str "a-b".toList) = false ∧
    exceptOk (Package.from_str "a-b-c-d".toList) = false ∧
    exceptOk (Package.from_str "a-b-c".toList) = true :=
  ⟨(C4_parse_failure_iff "a-b".toList).1.mpr (by decide),
   (C4_parse_failure_iff "a-b-c-d".toList).1.mpr (by decide),
   (C4_parse_failure_iff "a-b-c".toList).2.2 (by decide)⟩

theorem lexLe_cons_iff (x y : Char) (xs ys : List Char) :
    lexLe (x :: xs) (y :: ys) = true ↔ x < y ∨ (x = y ∧ lexLe xs ys = true) := by
  simp only [lexLe]
  split_ifs with h1 h2
  · simp [h1]
  · simp [h1, h2]
  · simp [h1, h2]

theorem lexLe_refl : ∀ a : List Char, lexLe a a = true
  | [] => rfl
  | x :: xs => by
    rw [lexLe_cons_iff]
    exact .inr ⟨rfl, lexLe_refl xs⟩

theorem lexLe_total : ∀ a b : List Char, lexLe a b = true ∨ lexLe b a = true
  | [], _ => .inl rfl
  | _ :: _, [] => .inr rfl
  | x :: xs, y :: ys => by
    rcases lt_trichotomy x y with h | h | h
    · exact .inl ((lexLe_cons_iff _ _ _ _).mpr (.inl h))
    · subst h
      rcases lexLe_total xs ys with ih | ih
      · exact .inl ((lexLe_cons_iff _ _ _ _).mpr (.inr ⟨rfl, ih⟩))
      · exact .inr ((lexLe_cons_iff _ _ _ _).mpr (.inr ⟨rfl, ih⟩))
    · exact .inr ((lexLe_cons_iff _ _ _ _).mpr (.inl h))

theorem lexLe_total_bool (a b : List Char) : lexLe a b || lexLe b a := by
  rcases lexLe_total a b with h | h <;> simp [h]

theorem lexLe_trans : ∀ a b c : List Char,
    lexLe a b = true → lexLe b c = true → lexLe a c = true
  | [], _, _, _, _ => rfl
  | x :: xs, [], _, h, _ => by simp [lexLe] at h
  | x :: xs, y :: ys, [], _, h => by simp [lexLe] at h
  | x :: xs, y :: ys, z :: zs, h1, h2 => by
    rw [lexLe_cons_iff] at h1 h2 ⊢
    rcases h1 with h1 | ⟨rfl, h1⟩
    · rcases h2 with h2 | ⟨rfl, h2⟩
      · exact .inl (lt_trans h1 h2)
      · exact .inl h1
    · rcases h2 with h2 | ⟨rfl, h2⟩
      · exact .inl h2
      · exact .inr ⟨rfl, lexLe_trans xs ys zs h1 h2⟩

theorem lexLe_antisymm : ∀ a b : List Char,
    lexLe a b = true → lexLe b a = true → a = b
  | [], [], _, _ => rfl
  | [], _ :: _, _, h => by simp [lexLe] at h
  | _ :: _, [], h, _ => by simp [lexLe] at h
  | x :: xs, y :: ys, h1, h2 => by
    rw [lexLe_cons_iff] at h1 h2
    rcases h1 with h1 | ⟨rfl, h1⟩
    · rcases h2 with h2 | ⟨h2, _⟩
      · exact absurd h1 (lt_asymm h2)
      · exact absurd h1 (h2 ▸ lt_irrefl x)
    · rcases h2 with h2 | ⟨_, h2⟩
      · exact absurd h2 (lt_irrefl x)
      · rw [lexLe_antisymm xs ys h1 h2]

/-- Sorting a list with `mergeSort lexLe` depends only on the multiset of
elements: Python's `sorted` of any permutation gives the same list. -/
theorem mergeSort_lexLe_congr {A B : List (List Char)} (h : A.Perm B) :
    A.mergeSort lexLe = B.mergeSort lexLe := by
  haveI : IsAntisymm (List Char) (fun a b => lexLe a b = true) := ⟨lexLe_antisymm⟩
  exact List.eq_of_perm_of_sorted
    (((A.mergeSort_perm lexLe).trans h).trans (B.mergeSort_perm lexLe).symm)
    (List.sorted_mergeSort lexLe_trans lexLe_total_bool A)
    (List.sorted_mergeSort lexLe_trans lexLe_total_bool B)

/-- Reading every index of `range l.length` recovers `l`. -/
theorem filterMap_get_range {α : Type} (l : List α) :
    (List.range l.length).filterMap (fun i => l.get? i) = l := by
  induction l with
  | nil => rfl
  | cons a t ih =>
    rw [List.length_cons, List.range_succ_eq_map, List.filterMap_cons]
    simp only [List.get?_cons_zero, List.filterMap_map]
    have : (fun i => (a :: t).get? i) ∘ Nat.succ = fun i => t.get? i := by
      funext i
      simp [Function.comp]
    rw [this, ih]

/-- `as_completed` yields each submitted future exactly once: reading the
tasks out in any completion order permutes the submitted list. -/
theorem filterMap_get_perm {α : Type} (l : List α) {order : List Nat}
    (h : order.Perm (List.range l.length)) :
    (order.filterMap (fun i => l.get? i)).Perm l := by
  have hp := h.filterMap (fun i => l.get? i)
  rw [filterMap_get_range] at hp
  exact hp

theorem parseDeps_length : ∀ {l : List (List Char)} {ps : List Package},
    parseDeps l = .ok ps → ps.length = l.length := by
  intro l
  induction l with
  | nil => intro ps h; cases h; rfl
  | cons s rest ih =>
    intro ps h
    unfold parseDeps at h
    rcases hs : Package.from_str s with e | p <;> rw [hs] at h
    · cases h
    · rcases hr : parseDeps rest with e | ps' <;> rw [hr] at h
      · cases h
      · cases h
        simp [ih hr]

theorem from_str_error_eq {s e : List Char}
    (h : Package.from_str s = .error e) : e = s := by
  unfold Package.from_str at h
  rcases hs : splitOnDash s with _ | ⟨a, _ | ⟨b, _ | ⟨c, _ | ⟨d, tl⟩⟩⟩⟩ <;>
    rw [hs] at h <;> simp_all

theorem parseDeps_error_of_mem {l : List (List Char)} {s : List Char}
    (hmem : s ∈ l) (hs : exceptOk (Package.from_str s) = false) :
    ∃ e, e ∈ l ∧ exceptOk (Package.from_str e) = false ∧
      parseDeps l = .error e := by
  induction l with
  | nil => cases hmem
  | cons t rest ih =>
    rcases ht : Package.from_str t with e | p
    · have het : e = t := from_str_error_eq ht
      subst het
      exact ⟨e, List.mem_cons_self e rest, by simp [exceptOk, ht],
        by simp [parseDeps, ht]⟩
    · have hmem' : s ∈ rest := by
        rcases List.mem_cons.mp hmem with rfl | hm
        · rw [ht] at hs; simp [exceptOk] at hs
        · exact hm
      rcases ih hmem' with ⟨e, he1, he2, he3⟩
      exact ⟨e, List.mem_cons_of_mem _ he1, he2,
        by simp [parseDeps, ht, he3, Except.map]⟩

theorem get_latest_ok_eq_latestOf {http : HttpOracle} {p : Package}
    (h : exceptOk (Package.get_latest http p TIMEOUT).1 = true) :
    (Package.get_latest http p TIMEOUT).1 = .ok (latestOf http p) := by
  unfold latestOf
  rcases hg : (Package.get_latest http p TIMEOUT).1 with e | q
  · rw [hg] at h; simp [exceptOk] at h
  · rfl

theorem collectLatest_ok_of_all {http : HttpOracle} {l : List Package}
    (h : ∀ p ∈ l, exceptOk (Package.get_latest http p TIMEOUT).1 = true) :
    collectLatest http l = .ok (l.map (latestOf http)) := by
  induction l with
  | nil => rfl
  | cons p rest ih =>
    have hp := get_latest_ok_eq_latestOf (h p (List.mem_cons_self p rest))
    have hr := ih fun q hq => h q (List.mem_cons_of_mem _ hq)
    simp [collectLatest, hp, hr, Except.map]

theorem collectLatest_error_of_mem {http : HttpOracle} {l : List Package}
    {p : Package} (hmem : p ∈ l)
    (hp : exceptOk (Package.get_latest http p TIMEOUT).1 = false) :
    ∃ q c, q ∈ l ∧ (Package.get_latest http q TIMEOUT).1 = .error c ∧
      collectLatest http l = .error (.lookupFailed q c) := by
  induction l with
  | nil => cases hmem
  | cons t rest ih =>
    rcases ht : (Package.get_latest http t TIMEOUT).1 with e | q
    · exact ⟨t, e, List.mem_cons_self t rest, ht, by simp [collectLatest, ht]⟩
    · have hmem' : p ∈ rest := by
        rcases List.mem_cons.mp hmem with rfl | hm
        · rw [ht] at hp; simp [exceptOk] at hp
        · exact hm
      rcases ih hmem' with ⟨q', c, hq1, hq2, hq3⟩
      exact ⟨q', c, List.mem_cons_of_mem _ hq1, hq2,
        by simp [collectLatest, ht, hq3, Except.map]⟩

theorem collectLatest_ok_inv {http : HttpOracle} {l r : List Package}
    (h : collectLatest http l = .ok r) :
    r = l.map (latestOf http) ∧
    ∀ p ∈ l, exceptOk (Package.get_latest http p TIMEOUT).1 = true := by
  induction l generalizing r with
  | nil => cases h; exact ⟨rfl, by simp⟩
  | cons t rest ih =>
    unfold collectLatest at h
    rcases ht : (Package.get_latest http t TIMEOUT).1 with e | q <;> rw [ht] at h
    · cases h
    · rcases hr : collectLatest http rest with e | r' <;> rw [hr] at h
      · cases h
      · cases h
        rcases ih hr with ⟨h1, h2⟩
        refine ⟨?_, ?_⟩
        · have hq : q = latestOf http t := by
            have hok : exceptOk (Package.get_latest http t TIMEOUT).1 = true := by
              simp [exceptOk, ht]
            have := get_latest_ok_eq_latestOf hok
            rw [ht] at this
            cases this
            rfl
          simp [hq, h1]
        · intro p hp
          rcases List.mem_cons.mp hp with rfl | hm
          · simp [exceptOk, ht]
          · exact h2 p hm

instance {ε α : Type} [DecidableEq ε] [DecidableEq α] :
    DecidableEq (Except ε α) := fun x y =>
  match x, y with
  | .ok a, .ok b =>
    if h : a = b then isTrue (by rw [h])
    else isFalse (by intro hc; cases hc; exact h rfl)
  | .ok _, .error _ => isFalse (fun hc => Except.noConfusion hc)
  | .error _, .ok _ => isFalse (fun hc => Except.noConfusion hc)
  | .error a, .error b =>
    if h : a = b then isTrue (by rw [h])
    else isFalse (by intro hc; cases hc; exact h rfl)

instance : IsTotal (List Char) (fun a b => lexLe a b = true) := ⟨lexLe_total⟩

instance : IsTrans (List Char) (fun a b => lexLe a b = true) := ⟨lexLe_trans⟩

instance : IsAntisymm (List Char) (fun a b => lexLe a b = true) := ⟨lexLe_antisymm⟩

/-- `mergeSort` agrees with the structurally recursive `insertionSort`
(used for evaluation on concrete inputs): both are sorted permutations and
`lexLe` is antisymmetric. -/
theorem mergeSort_lexLe_eq_insertionSort (l : List (List Char)) :
    l.mergeSort lexLe = l.insertionSort (fun a b => lexLe a b = true) :=
  List.eq_of_perm_of_sorted
    ((l.mergeSort_perm lexLe).trans (List.perm_insertionSort _ l).symm)
    (List.sorted_mergeSort lexLe_trans lexLe_total_bool l)
    (List.sorted_insertionSort _ l)

/-- The dependency list a fully successful run writes back: the updated
packages, serialized, sorted with Python's `sorted` (lexicographic). -/
def sortedUpdated (http : HttpOracle) (deps : List Package) : List (List Char) :=
  ((deps.map (latestOf http)).map Package.toStr).mergeSort lexLe

/-- When parsing succeeds and every lookup succeeds, the run returns the
copied manifest with the canonical sorted dependency list — the same for
every completion order and every worker count — and issues exactly one
request per dependency. -/
theorem update_ok_of_all (http : HttpOracle) (order : List Nat)
    (manifest : Manifest) (max_workers : Nat) {deps : List Package}
    (hparse : parseDeps manifest.dependencies = .ok deps)
    (horder : order.Perm (List.range deps.length))
    (hok : ∀ p ∈ deps, exceptOk (Package.get_latest http p TIMEOUT).1 = true) :
    update_manifest_deps http order manifest max_workers =
      (.ok { manifest with dependencies := sortedUpdated http deps },
       deps.map (fun p => p.request TIMEOUT)) := by
  have hcomp : (order.filterMap (fun i => deps.get? i)).Perm deps :=
    filterMap_get_perm deps horder
  have hcoll : collectLatest http (order.filterMap (fun i => deps.get? i)) =
      .ok ((order.filterMap (fun i => deps.get? i)).map (latestOf http)) :=
    collectLatest_ok_of_all fun p hp => hok p (hcomp.mem_iff.mp hp)
  have hsort : (((order.filterMap (fun i => deps.get? i)).map
      (latestOf http)).map Package.toStr).mergeSort lexLe =
      sortedUpdated http deps :=
    mergeSort_lexLe_congr ((hcomp.map (latestOf http)).map Package.toStr)
  simp only [update_manifest_deps, hparse, hcoll, hsort]

/-- A run that returns a manifest had all its lookups succeed. -/
theorem update_ok_inv {http : HttpOracle} {order : List Nat}
    {manifest : Manifest} {max_workers : Nat} {deps : List Package}
    {m : Manifest}
    (hparse : parseDeps manifest.dependencies = .ok deps)
    (horder : order.Perm (List.range deps.length))
    (h : (update_manifest_deps http order manifest max_workers).1 = .ok m) :
    ∀ p ∈ deps, exceptOk (Package.get_latest http p TIMEOUT).1 = true := by
  rcases hc : collectLatest http (order.filterMap fun i => deps.get? i)
    with e | r
  · simp only [update_manifest_deps, hparse, hc] at h
    exact Except.noConfusion h
  · intro p hp
    exact (collectLatest_ok_inv hc).2 p
      (((filterMap_get_perm deps horder).mem_iff).mpr hp)

/-- C1: when every lookup succeeds, the dependencies of the returned
manifest are exactly the serialized updated packages sorted
lexicographically — a value that does not mention the completion order
`order` (nor `max_workers`), hence is independent of network timing.  The
last two conjuncts spell out "sorted serialization": the written list is a
permutation of the serialized updated packages and is lexicographically
sorted. -/
theorem C1_success_sorted_output (http : HttpOracle) (order : List Nat)
    (manifest : Manifest) (max_workers : Nat) (deps : List Package)
    (hparse : parseDeps manifest.dependencies = .ok deps)
    (horder : order.Perm (List.range deps.length))
    (hok : ∀ p ∈ deps, exceptOk (Package.get_latest http p TIMEOUT).1 = true) :
    (update_manifest_deps http order manifest max_workers).1 =
      .ok { manifest with dependencies := sortedUpdated http deps } ∧
    (sortedUpdated http deps).Perm ((deps.map (latestOf http)).map Package.toStr) ∧
    (sortedUpdated http deps).Pairwise (fun a b => lexLe a b = true) := by
  refine ⟨?_, ?_, ?_⟩
  · rw [update_ok_of_all http order manifest max_workers hparse horder hok]
  · exact List.mergeSort_perm _ lexLe
  · exact List.sorted_mergeSort lexLe_trans lexLe_total_bool _

/-- The registry of the end-to-end scenario: `acme-widget`'s latest
version is `1.2.0`, `acme-gadget`'s is `2.1.0`; everything else is
unreachable. -/
def httpDemo : HttpOracle := fun req =>
  if req.url = Package.url ⟨"acme".toList, "widget".toList, "1.0.0".toList⟩ then
    .success ⟨200, some "1.2.0".toList⟩
  else if req.url = Package.url ⟨"acme".toList, "gadget".toList, "2.1.0".toList⟩ then
    .success ⟨200, some "2.1.0".toList⟩
  else
    .failure

/-- The end-to-end scenario manifest. -/
def demoManifest : Manifest :=
  ⟨["acme-widget-1.0.0".toList, "acme-gadget-2.1.0".toList], []⟩

/-- Its parsed dependency list. -/
def demoDeps : List Package :=
  [⟨"acme".toList, "widget".toList, "1.0.0".toList⟩,
   ⟨"acme".toList, "gadget".toList, "2.1.0".toList⟩]

theorem C1_witness :
    parseDeps demoManifest.dependencies = .ok demoDeps ∧
    ([1, 0] : List Nat).Perm (List.range demoDeps.length) ∧
    (∀ p ∈ demoDeps, exceptOk (Package.get_latest httpDemo p TIMEOUT).1 = true) ∧
    ((update_manifest_deps httpDemo [1, 0] demoManifest DEFAULT_MAX_WORKERS).1 =
      .ok { demoManifest with dependencies := sortedUpdated httpDemo demoDeps } ∧
     (sortedUpdated httpDemo demoDeps).Perm
       ((demoDeps.map (latestOf httpDemo)).map Package.toStr) ∧
     (sortedUpdated httpDemo demoDeps).Pairwise (fun a b => lexLe a b = true)) ∧
    sortedUpdated httpDemo demoDeps =
      ["acme-gadget-2.1.0".toList, "acme-widget-1.2.0".toList] :=
  ⟨by decide, by decide, by decide,
   C1_success_sorted_output httpDemo [1, 0] demoManifest DEFAULT_MAX_WORKERS
     demoDeps (by decide) (by decide) (by decide),
   by unfold sortedUpdated; rw [mergeSort_lexLe_eq_insertionSort]; decide⟩

/-- C9: determinism in the concurrency parameters.  Two runs on the same
manifest against the same registry, with any two completion orders and any
two worker counts (e.g. 1 and 5), that both return a manifest return the
same manifest, whose dependency list is the canonical sorted sequence. -/
theorem C9_concurrency_deterministic (http : HttpOracle) (manifest : Manifest)
    (order1 order2 : List Nat) (mw1 mw2 : Nat) (deps : List Package)
    (m1 m2 : Manifest)
    (hparse : parseDeps manifest.dependencies = .ok deps)
    (h1 : order1.Perm (List.range deps.length))
    (h2 : order2.Perm (List.range deps.length))
    (hr1 : (update_manifest_deps http order1 manifest mw1).1 = .ok m1)
    (hr2 : (update_manifest_deps http order2 manifest mw2).1 = .ok m2) :
    m1 = m2 ∧ m1.dependencies = sortedUpdated http deps := by
  have hok := update_ok_inv hparse h1 hr1
  have e1 := update_ok_of_all http order1 manifest mw1 hparse h1 hok
  have e2 := update_ok_of_all http order2 manifest mw2 hparse h2 hok
  rw [e1] at hr1
  rw [e2] at hr2
  simp only [Except.ok.injEq] at hr1 hr2
  rw [← hr1, ← hr2]
  exact ⟨rfl, rfl⟩

theorem C9_witness :
    parseDeps demoManifest.dependencies = .ok demoDeps ∧
    ([0, 1] : List Nat).Perm (List.range demoDeps.length) ∧
    ([1, 0] : List Nat).Perm (List.range demoDeps.length) ∧
    (update_manifest_deps httpDemo [0, 1] demoManifest 1).1 =
      .ok { demoManifest with dependencies := sortedUpdated httpDemo demoDeps } ∧
    (update_manifest_deps httpDemo [1, 0] demoManifest 5).1 =
      .ok { demoManifest with dependencies := sortedUpdated httpDemo demoDeps } ∧
    ({ demoManifest with dependencies := sortedUpdated httpDemo demoDeps } : Manifest) =
      { demoManifest with dependencies := sortedUpdated httpDemo demoDeps } ∧
    ({ demoManifest with dependencies := sortedUpdated httpDemo demoDeps } : Manifest).dependencies =
      sortedUpdated httpDemo demoDeps := by
  have hparse : parseDeps demoManifest.dependencies = .ok demoDeps := by decide
  have h1 : ([0, 1] : List Nat).Perm (List.range demoDeps.length) := by decide
  have h2 : ([1, 0] : List Nat).Perm (List.range demoDeps.length) := by decide
  have hok : ∀ p ∈ demoDeps,
      exceptOk (Package.get_latest httpDemo p TIMEOUT).1 = true := by decide
  have e1 := update_ok_of_all httpDemo [0, 1] demoManifest 1 hparse h1 hok
  have e2 := update_ok_of_all httpDemo [1, 0] demoManifest 5 hparse h2 hok
  have hr1 : (update_manifest_deps httpDemo [0, 1] demoManifest 1).1 =
      .ok { demoManifest with dependencies := sortedUpdated httpDemo demoDeps } := by
    rw [e1]
  have hr2 : (update_manifest_deps httpDemo [1, 0] demoManifest 5).1 =
      .ok { demoManifest with dependencies := sortedUpdated httpDemo demoDeps } := by
    rw [e2]
  exact ⟨hparse, h1, h2, hr1, hr2,
    (C9_concurrency_deterministic httpDemo demoManifest [0, 1] [1, 0] 1 5
      demoDeps _ _ hparse h1 h2 hr1 hr2).1,
    (C9_concurrency_deterministic httpDemo demoManifest [0, 1] [1, 0] 1 5
      demoDeps _ _ hparse h1 h2 hr1 hr2).2⟩

/-- C10: a successful run writes one entry per input entry — the output
dependency list has the length of the input list (duplicates included) and
is a permutation (same multiset) of the serialized updated versions of the
parsed input entries. -/
theorem C10_entry_preservation (http : HttpOracle) (order : List Nat)
    (manifest : Manifest) (max_workers : Nat) (deps : List Package)
    (m : Manifest)
    (hparse : parseDeps manifest.dependencies = .ok deps)
    (horder : order.Perm (List.range deps.length))
    (h : (update_manifest_deps http order manifest max_workers).1 = .ok m) :
    m.dependencies.length = manifest.dependencies.length ∧
    m.dependencies.Perm ((deps.map (latestOf http)).map Package.toStr) := by
  have hok := update_ok_inv hparse horder h
  rw [update_ok_of_all http order manifest max_workers hparse horder hok] at h
  simp only [Except.ok.injEq] at h
  have hdeps : m.dependencies = sortedUpdated http deps := by rw [← h]
  have hperm : m.dependencies.Perm ((deps.map (latestOf http)).map Package.toStr) := by
    rw [hdeps]
    exact List.mergeSort_perm _ lexLe
  refine ⟨?_, hperm⟩
  rw [hperm.length_eq]
  simp [parseDeps_length hparse]

theorem C10_witness :
    parseDeps demoManifest.dependencies = .ok demoDeps ∧
    ([1, 0] : List Nat).Perm (List.range demoDeps.length) ∧
    (update_manifest_deps httpDemo [1, 0] demoManifest DEFAULT_MAX_WORKERS).1 =
      .ok { demoManifest with dependencies := sortedUpdated httpDemo demoDeps } ∧
    ({ demoManifest with dependencies := sortedUpdated httpDemo demoDeps } : Manifest).dependencies.length =
      demoManifest.dependencies.length ∧
    ({ demoManifest with dependencies := sortedUpdated httpDemo demoDeps } : Manifest).dependencies.Perm
      ((demoDeps.map (latestOf httpDemo)).map Package.toStr) := by
  have hparse : parseDeps demoManifest.dependencies = .ok demoDeps := by decide
  have horder : ([1, 0] : List Nat).Perm (List.range demoDeps.length) := by decide
  have hok : ∀ p ∈ demoDeps,
      exceptOk (Package.get_latest httpDemo p TIMEOUT).1 = true := by decide
  have hr : (update_manifest_deps httpDemo [1, 0] demoManifest DEFAULT_MAX_WORKERS).1 =
      .ok { demoManifest with dependencies := sortedUpdated httpDemo demoDeps } := by
    rw [update_ok_of_all httpDemo [1, 0] demoManifest DEFAULT_MAX_WORKERS hparse horder hok]
  have hc := C10_entry_preservation httpDemo [1, 0] demoManifest DEFAULT_MAX_WORKERS
    demoDeps _ hparse horder hr
  exact ⟨hparse, horder, hr, hc.1, hc.2⟩

/-- C2: if any lookup fails, `update_manifest_deps` raises an error
naming a package whose lookup failed (together with the cause), and
`main` leaves the output file exactly as it was — no manifest is
written. -/
theorem C2_lookup_failure_aborts (http : HttpOracle) (order : List Nat)
    (manifest : Manifest) (max_workers : Nat) (out0 : Option Manifest)
    (deps : List Package)
    (hparse : parseDeps manifest.dependencies = .ok deps)
    (horder : order.Perm (List.range deps.length))
    (hfail : ∃ p ∈ deps, exceptOk (Package.get_latest http p TIMEOUT).1 = false) :
    (∃ q c, q ∈ deps ∧ (Package.get_latest http q TIMEOUT).1 = .error c ∧
      (update_manifest_deps http order manifest max_workers).1 =
        .error (.lookupFailed q c)) ∧
    main_run http order manifest max_workers out0 = (out0, false) := by
  rcases hfail with ⟨p, hp, hpf⟩
  have hcomp := filterMap_get_perm deps horder
  rcases collectLatest_error_of_mem (hcomp.mem_iff.mpr hp) hpf with
    ⟨q, c, hq1, hq2, hq3⟩
  have hupd : (update_manifest_deps http order manifest max_workers).1 =
      .error (.lookupFailed q c) := by
    simp only [update_manifest_deps, hparse, hq3]
  refine ⟨⟨q, c, hcomp.mem_iff.mp hq1, hq2, hupd⟩, ?_⟩
  simp only [main_run, hupd]

/-- A manifest whose second dependency is unknown to `httpDemo`, so its
lookup fails with a connection error. -/
def demoManifestFail : Manifest :=
  ⟨["acme-widget-1.0.0".toList, "evil-mod-0.1.0".toList], []⟩

/-- Its parsed dependency list. -/
def demoDepsFail : List Package :=
  [⟨"acme".toList, "widget".toList, "1.0.0".toList⟩,
   ⟨"evil".toList, "mod".toList, "0.1.0".toList⟩]

theorem C2_witness :
    parseDeps demoManifestFail.dependencies = .ok demoDepsFail ∧
    ([0, 1] : List Nat).Perm (List.range demoDepsFail.length) ∧
    (∃ p ∈ demoDepsFail,
      exceptOk (Package.get_latest httpDemo p TIMEOUT).1 = false) ∧
    ((∃ q c, q ∈ demoDepsFail ∧
        (Package.get_latest httpDemo q TIMEOUT).1 = .error c ∧
        (update_manifest_deps httpDemo [0, 1] demoManifestFail
          DEFAULT_MAX_WORKERS).1 = .error (.lookupFailed q c)) ∧
     main_run httpDemo [0, 1] demoManifestFail DEFAULT_MAX_WORKERS
       (some demoManifest) = (some demoManifest, false)) :=
  ⟨by decide, by decide, by decide,
   C2_lookup_failure_aborts httpDemo [0, 1] demoManifestFail
     DEFAULT_MAX_WORKERS (some demoManifest) demoDepsFail
     (by decide) (by decide) (by decide)⟩

/-- C7: a malformed dependency string aborts the run before any network
activity: the run fails with the parse error (naming a malformed entry of
the list) and the recorded request trace is empty — no lookup was issued
for any entry, malformed or well-formed. -/
theorem C7_parse_aborts_before_network (http : HttpOracle) (order : List Nat)
    (manifest : Manifest) (max_workers : Nat)
    (hbad : ∃ s ∈ manifest.dependencies,
      exceptOk (Package.from_str s) = false) :
    ∃ e, e ∈ manifest.dependencies ∧ exceptOk (Package.from_str e) = false ∧
      update_manifest_deps http order manifest max_workers =
        (.error (.malformedIdentifier e), ([] : List HttpRequest)) := by
  rcases hbad with ⟨s, hs, hsf⟩
  rcases parseDeps_error_of_mem hs hsf with ⟨e, he1, he2, he3⟩
  exact ⟨e, he1, he2, by simp only [update_manifest_deps, he3]⟩

/-- A manifest whose second dependency string is malformed. -/
def demoManifestBad : Manifest :=
  ⟨["acme-widget-1.0.0".toList, "bad".toList], []⟩

theorem C7_witness :
    (∃ s ∈ demoManifestBad.dependencies,
      exceptOk (Package.from_str s) = false) ∧
    ∃ e, e ∈ demoManifestBad.dependencies ∧
      exceptOk (Package.from_str e) = false ∧
      update_manifest_deps httpDemo [0, 1] demoManifestBad DEFAULT_MAX_WORKERS =
        (.error (.malformedIdentifier e), ([] : List HttpRequest)) :=
  ⟨by decide,
   C7_parse_aborts_before_network httpDemo [0, 1] demoManifestBad
     DEFAULT_MAX_WORKERS (by decide)⟩

/-- C8: every request `get_latest` issues carries an explicit, finite
timeout — the caller-supplied one; and every request handed to the pool by
`update_manifest_deps` (which calls `get_latest()` with its default)
carries the default timeout of 10 seconds. -/
theorem C8_requests_carry_timeout (http : HttpOracle) (p : Package) (t : Nat)
    (order : List Nat) (manifest : Manifest) (max_workers : Nat) :
    (Package.get_latest http p t).2.timeout = some t ∧
    ∀ req ∈ (update_manifest_deps http order manifest max_workers).2,
      req.timeout = some TIMEOUT := by
  refine ⟨rfl, ?_⟩
  intro req hreq
  rcases hp : parseDeps manifest.dependencies with e | deps
  · simp only [update_manifest_deps, hp, List.not_mem_nil] at hreq
  · rcases hc : collectLatest http (order.filterMap fun i => deps.get? i)
      with e | r <;>
      simp only [update_manifest_deps, hp, hc, List.mem_map] at hreq <;>
      rcases hreq with ⟨q, _, hq⟩ <;>
      rw [← hq]<;> rfl

theorem get?_set_length_ne {l : List Manifest} {v : Manifest} {i r : Nat}
    (h : i ≠ r) : List.get? (List.set l i v) r = List.get? l r := by
  simp [List.get?_eq_getElem?, List.getElem?_set_ne h]

/-- C5: whatever happens — parse error, lookup error or success — the
caller's manifest object at reference `r` is untouched by
`update_manifest_deps_st` (so, in particular, its `dependencies`), and
the reference returned on success is a different object: the function
operates on and returns an independent deep copy. -/
theorem C5_no_mutation (http : HttpOracle) (order : List Nat) (s : Store)
    (r : Nat) (max_workers : Nat) (hr : r < List.length s) :
    List.get? (update_manifest_deps_st http order s r max_workers).1 r =
      List.get? s r ∧
    ∀ r', (update_manifest_deps_st http order s r max_workers).2 = .ok r' →
      r' ≠ r := by
  have hlr : List.length s ≠ r := Nat.ne_of_gt hr
  have happ : List.get? (s ++ [List.getD s r ⟨[], []⟩]) r = List.get? s r := by
    simp [List.get?_eq_getElem?, List.getElem?_append_left hr]
  constructor
  · simp only [update_manifest_deps_st, Store.deepcopy, Store.setDeps]
    split
    · exact happ
    · split
      · exact happ
      · rw [get?_set_length_ne hlr]
        exact happ
  · intro r' h
    simp only [update_manifest_deps_st, Store.deepcopy, Store.setDeps] at h
    split at h
    · exact Except.noConfusion h
    · split at h
      · exact Except.noConfusion h
      · cases h
        exact hlr

theorem C5_witness :
    0 < List.length [demoManifest, demoManifestBad] ∧
    (List.get? (update_manifest_deps_st httpDemo [0, 1]
        [demoManifest, demoManifestBad] 0 DEFAULT_MAX_WORKERS).1 0 =
      List.get? [demoManifest, demoManifestBad] 0 ∧
     ∀ r', (update_manifest_deps_st httpDemo [0, 1]
        [demoManifest, demoManifestBad] 0 DEFAULT_MAX_WORKERS).2 = .ok r' →
      r' ≠ 0) :=
  ⟨by decide,
   C5_no_mutation httpDemo [0, 1] [demoManifest, demoManifestBad] 0
     DEFAULT_MAX_WORKERS (by decide)⟩

/-- C6 counterexample: `get_latest` itself does not attach the offending
package identifier to its failures.  Under a registry where every request
raises, two distinct packages (same namespace and name, different version
— they even share the URL) fail with byte-for-byte identical errors, so
the error raised by `get_latest` cannot identify the offending package;
the identifier is only attached one level up, by `update_manifest_deps`
(see the amended theorem). -/
theorem C6_counterexample :
    (Package.get_latest (fun _ => .failure)
      ⟨"acme".toList, "widget".toList, "1.0.0".toList⟩ TIMEOUT).1 =
      .error .connectionError ∧
    (Package.get_latest (fun _ => .failure)
      ⟨"acme".toList, "widget".toList, "0.9.9".toList⟩ TIMEOUT).1 =
      .error .connectionError ∧
    (⟨"acme".toList, "widget".toList, "1.0.0".toList⟩ : Package) ≠
      ⟨"acme".toList, "widget".toList, "0.9.9".toList⟩ :=
  ⟨rfl, rfl, by decide⟩

/-- C6 (amended): `get_latest p` returns a new package with `p`'s
namespace and name and the response's `latest.version_number` when the
request returns a non-error status with a well-formed body; it raises on
network failure, on a 4xx/5xx status, and on a malformed or missing body
— the raised error describes the cause but not the package; the caller
`update_manifest_deps` (modelled by its collection loop) is what wraps
the failure into an error carrying the offending package identifier. -/
theorem C6_get_latest_behaviour (http : HttpOracle) (p : Package) (t : Nat) :
    (∀ resp, http (p.request t) = .success resp →
      ¬(400 ≤ resp.status ∧ resp.status < 600) →
      ∀ v, resp.latest_version_number = some v →
        (Package.get_latest http p t).1 = .ok ⟨p.«namespace», p.name, v⟩) ∧
    (http (p.request t) = .failure →
      (Package.get_latest http p t).1 = .error .connectionError) ∧
    (∀ resp, http (p.request t) = .success resp →
      400 ≤ resp.status → resp.status < 600 →
      (Package.get_latest http p t).1 = .error (.httpError resp.status)) ∧
    (∀ resp, http (p.request t) = .success resp →
      ¬(400 ≤ resp.status ∧ resp.status < 600) →
      resp.latest_version_number = none →
      (Package.get_latest http p t).1 = .error .malformedBody) ∧
    (∀ e, (Package.get_latest http p TIMEOUT).1 = .error e →
      collectLatest http [p] = .error (.lookupFailed p e)) := by
  refine ⟨?_, ?_, ?_, ?_, ?_⟩
  · intro resp hresp hst v hv
    simp [Package.get_latest, hresp, hst, hv]
  · intro hfail
    simp [Package.get_latest, hfail]
  · intro resp hresp h4 h6
    have hst : 400 ≤ resp.status ∧ resp.status < 600 := ⟨h4, h6⟩
    simp [Package.get_latest, hresp, hst]
  · intro resp hresp hst hv
    simp [Package.get_latest, hresp, hst, hv]
  · intro e he
    simp [collectLatest, he]

theorem C6_witness :
    httpDemo ((⟨"acme".toList, "widget".toList, "1.0.0".toList⟩ : Package).request TIMEOUT) =
      .success ⟨200, some "1.2.0".toList⟩ ∧
    ¬(400 ≤ (200 : Nat) ∧ (200 : Nat) < 600) ∧
    (⟨200, some "1.2.0".toList⟩ : HttpResponse).latest_version_number =
      some "1.2.0".toList ∧
    (Package.get_latest httpDemo
      ⟨"acme".toList, "widget".toList, "1.0.0".toList⟩ TIMEOUT).1 =
      .ok ⟨"acme".toList, "widget".toList, "1.2.0".toList⟩ ∧
    collectLatest (fun _ => .failure)
      [⟨"acme".toList, "widget".toList, "1.0.0".toList⟩] =
      .error (.lookupFailed ⟨"acme".toList, "widget".toList, "1.0.0".toList⟩
        .connectionError) :=
  ⟨by decide, by decide, rfl,
   (C6_get_latest_behaviour httpDemo
      ⟨"acme".toList, "widget".toList, "1.0.0".toList⟩ TIMEOUT).1
     ⟨200, some "1.2.0".toList⟩ (by decide) (by decide) "1.2.0".toList rfl,
   (C6_get_latest_behaviour (fun _ => .failure)
      ⟨"acme".toList, "widget".toList, "1.0.0".toList⟩ TIMEOUT).2.2.2.2
     .connectionError rfl⟩
